import Mathlib

/-!
Verification of the lagom IMPALA agent (`legacy/impala/.../agent.py`) and of the
V-trace estimator it invokes.  The V-trace function lives in `lagom.metric`,
whose source is not part of this snapshot; it is modelled from the design
document (spec section 4.1).  Everything taken from `agent.py` follows the code
line by line.
-/

namespace Lagom

/-- Modelled from the spec: step 1 of the V-trace algorithm (the body of
`lagom.metric.vtrace` is not in the snapshot).  Per-step importance ratio
`ratio[t] = exp(pi_logp[t] - mu_logp[t])` between target-policy and
behavior-policy log-probabilities. -/
noncomputable def importanceRatios (muLogp piLogp : List ℝ) : List ℝ :=
  List.zipWith (fun m p => Real.exp (p - m)) muLogp piLogp

/-- Modelled from the spec: steps 2-7 of the V-trace algorithm, the backward
recursion over one trajectory, taking the already-computed importance ratios.
At step `t`: `rho = min ratio clipRho`, `c = min ratio clipPgRho`,
`Vnext` is the next value estimate (bootstrap `lastV` at the end),
`delta = rho * (r + gamma * Vnext * (1 - done) - V)`,
`vtarget = V + delta + gamma * c * (1 - done) * (vtargetNext - Vnext)`,
`advantage = c * (r + gamma * (1 - done) * vtargetNext - V)`,
with `vtargetNext` the next value target (`lastV` past the end). -/
noncomputable def vtraceGo (gamma clipRho clipPgRho lastV : ℝ) :
    List ℝ → List ℝ → List ℝ → List Bool → List ℝ × List ℝ
  | ratio :: ratios, r :: rs, V :: Vs, d :: ds =>
    let rest := vtraceGo gamma clipRho clipPgRho lastV ratios rs Vs ds
    let Vnext := Vs.headD lastV
    let vtNext := rest.1.headD lastV
    let notDone : ℝ := if d then 0 else 1
    let rho := min ratio clipRho
    let c := min ratio clipPgRho
    let delta := rho * (r + gamma * Vnext * notDone - V)
    ((V + delta + gamma * c * notDone * (vtNext - Vnext)) :: rest.1,
      (c * (r + gamma * notDone * vtNext - V)) :: rest.2)
  | _, _, _, _ => ([], [])

/-- Modelled from the spec: `lagom.metric.vtrace` (source not in the snapshot).
Given one trajectory's behavior log-probs, target log-probs, discount, rewards,
value estimates, bootstrap value, per-step termination flags and the two clip
thresholds, return the value targets and advantages; mismatched input lengths
fail fast (`none`) instead of silently truncating. -/
noncomputable def vtrace (behaviorLogp targetLogp : List ℝ) (gamma : ℝ)
    (rewards values : List ℝ) (lastV : ℝ) (dones : List Bool)
    (clipRho clipPgRho : ℝ) : Option (List ℝ × List ℝ) :=
  if behaviorLogp.length = dones.length ∧ targetLogp.length = dones.length ∧
      rewards.length = dones.length ∧ values.length = dones.length then
    some (vtraceGo gamma clipRho clipPgRho lastV
      (importanceRatios behaviorLogp targetLogp) rewards values dones)
  else none

/-- Standard n-step bootstrapped return, written from the spec's words for the
on-policy identity: `R[t] = r[t] + gamma * (1 - done[t]) * R[t+1]` with
`R[T] = lastV`.  This is the reference definition the V-trace targets are
compared against in the on-policy case. -/
def nstepBootstrapReturn (gamma lastV : ℝ) : List ℝ → List Bool → List ℝ
  | r :: rs, d :: ds =>
    let rest := nstepBootstrapReturn gamma lastV rs ds
    (r + gamma * (if d then 0 else 1) * rest.headD lastV) :: rest
  | _, _ => []

/-- Keep the entries of a list at indices `0..t` and replace every entry after
index `t` by zero.  Used to state the terminal-boundary property. -/
def zeroAfter (t : ℕ) (xs : List ℝ) : List ℝ :=
  xs.take (t + 1) ++ List.replicate (xs.length - (t + 1)) 0

/-! Torch-style reductions used by `Agent.learn` (agent.py lines 111-122). -/

/-- Mean of a tensor of shape `[n]`, as `tensor.mean()` computes it. -/
noncomputable def meanList (xs : List ℝ) : ℝ := xs.sum / xs.length

/-- Unbiased sample variance, as `tensor.var()` computes it (Bessel
correction, divisor `n - 1`). -/
noncomputable def varList (xs : List ℝ) : ℝ :=
  (xs.map (fun x => (x - meanList xs) ^ 2)).sum / ((xs.length : ℝ) - 1)

/-- Standard deviation, as `tensor.std()` computes it. -/
noncomputable def stdList (xs : List ℝ) : ℝ := Real.sqrt (varList xs)

/-- Advantage standardization from agent.py line 112:
`As = (As - As.mean())/(As.std() + 1e-8)`. -/
noncomputable def standardize_adv (As : List ℝ) : List ℝ :=
  As.map (fun A => (A - meanList As) / (stdList As + 1 / 10 ^ 8))

/-- Per-timestep policy loss from agent.py line 117: `-logprobs*As`. -/
def policy_loss (logprobs As : List ℝ) : List ℝ :=
  List.zipWith (fun lp A => -lp * A) logprobs As

/-- Per-timestep entropy loss from agent.py line 118: `-entropies`. -/
def entropy_loss (entropies : List ℝ) : List ℝ :=
  entropies.map (fun e => -e)

/-- Per-timestep value loss from agent.py line 119:
`F.mse_loss(Vs, vs, reduction='none')`, i.e. elementwise `(V - v)^2`. -/
def value_loss (Vs vs : List ℝ) : List ℝ :=
  List.zipWith (fun V v => (V - v) ^ 2) Vs vs

/-- Elementwise total loss from agent.py line 121:
`policy_loss + value_coef*value_loss + entropy_coef*entropy_loss`
(Python `+` is left-associative). -/
def total_loss (valueCoef entropyCoef : ℝ)
    (logprobs entropies Vs vs As : List ℝ) : List ℝ :=
  List.zipWith (fun x y => x + y)
    (List.zipWith (fun p v => p + valueCoef * v)
      (policy_loss logprobs As) (value_loss Vs vs))
    ((entropy_loss entropies).map (fun e => entropyCoef * e))

/-- Scalar loss from agent.py line 122: `loss = loss.mean()`; this is the value
that is backpropagated. -/
noncomputable def learn_loss (valueCoef entropyCoef : ℝ)
    (logprobs entropies Vs vs As : List ℝ) : ℝ :=
  meanList (total_loss valueCoef entropyCoef logprobs entropies Vs vs As)

/-- Reference per-timestep loss list, written from the claim's formula: at each
timestep `-logprob*advantage + value_coef*(V - vtarget)^2 +
entropy_coef*(-entropy)`, truncating at the shortest input like the code's
elementwise tensor ops. -/
def lossSpecList (valueCoef entropyCoef : ℝ) :
    List ℝ → List ℝ → List ℝ → List ℝ → List ℝ → List ℝ
  | lp :: lps, e :: es, V :: Vs, v :: vs, A :: As =>
    (-lp * A + valueCoef * (V - v) ^ 2 + entropyCoef * -e) ::
      lossSpecList valueCoef entropyCoef lps es Vs vs As
  | _, _, _, _, _ => []

/-! Agent state: the `total_timestep` buffer (agent.py lines 61 and 131) and
the operations that may touch it. -/

/-- Mutable agent state relevant to the timestep counter: the buffer registered
at agent.py line 61 as `torch.tensor(0)`. -/
structure AgentState where
  total_timestep : ℕ
  deriving Repr, DecidableEq

/-- Agent construction initializes the counter to 0 (agent.py line 61). -/
def initAgent : AgentState := ⟨0⟩

/-- The three public agent operations that run against the state; a `learn`
call carries the lengths `len(traj)` of the trajectories in its batch `D`. -/
inductive AgentOp where
  | chooseAction
  | learn (lens : List ℕ)
  | checkpoint (numIter : ℕ)

/-- Effect of one operation on the counter: `choose_action` and `checkpoint`
never touch `total_timestep`; `learn` executes agent.py line 131,
`self.total_timestep += sum([len(traj) for traj in D])`. -/
def applyOp (s : AgentState) : AgentOp → AgentState
  | .chooseAction => s
  | .learn lens => ⟨s.total_timestep + lens.sum⟩
  | .checkpoint _ => s

/-- Run a sequence of agent operations from a state. -/
def runOps (s : AgentState) : List AgentOp → AgentState
  | [] => s
  | op :: ops => runOps (applyOp s op) ops

/-- The tail of `Agent.learn` (agent.py lines 128-131) in program order: line
129 calls `self.lr_scheduler.step(self.total_timestep)` when the scheduler is
enabled, and only afterwards line 131 adds the batch's timesteps.  Returns the
new state together with the argument passed to `lr_scheduler.step` (`none` when
the scheduler is disabled). -/
def learnStep (useLrScheduler : Bool) (s : AgentState) (lens : List ℕ) :
    AgentState × Option ℕ :=
  let schedArg := if useLrScheduler then some s.total_timestep else none
  (⟨s.total_timestep + lens.sum⟩, schedArg)

/-! Checkpointing (agent.py lines 145-149). -/

/-- Modelled from the spec: `lagom.envs.wrappers.get_wrapper` (source not in
the snapshot) searches the environment's wrapper stack for a wrapper with the
given class name and returns it, or `None` when absent.  The stack is modelled
as the list of wrapper class names. -/
def get_wrapper (env : List String) (name : String) : Option String :=
  env.find? (fun w => w = name)

/-- A file written by `Agent.checkpoint`: `agent_{num_iter}.pth` or
`obs_moments_{num_iter}.pth`, each keyed by the iteration number. -/
inductive CkptFile where
  | agent (numIter : ℕ)
  | obsMoments (numIter : ℕ)
  deriving Repr, DecidableEq

/-- The files `Agent.checkpoint` writes (agent.py lines 145-149): always
`self.save(logdir/f'agent_{num_iter}.pth')`; then, when
`get_wrapper(self.env, 'VecStandardizeObservation')` is not `None`, also the
pickle of the wrapper's `(mean, var)` keyed by the same iteration number. -/
def checkpoint (env : List String) (numIter : ℕ) : List CkptFile :=
  [CkptFile.agent numIter] ++
    (match get_wrapper env "VecStandardizeObservation" with
      | some _ => [CkptFile.obsMoments numIter]
      | none => [])

/-! Constructor dispatch over the action space (agent.py lines 53-57) and the
deferred failure in `choose_action` (line 76). -/

/-- The gym action-space descriptors the constructor dispatches on. -/
inductive ActionSpace where
  | discrete (n : ℕ)
  | box (dim : ℕ)
  | other
  deriving Repr, DecidableEq

/-- The action head the constructor builds: `CategoricalHead` for `Discrete`,
`DiagGaussianHead` for `Box`. -/
inductive ActionHead where
  | categorical (featureDim n : ℕ)
  | diagGaussian (featureDim dim : ℕ)
  deriving Repr, DecidableEq

/-- The `if`/`elif` chain of agent.py lines 53-56 has no `else` branch: for an
action space that is neither `Discrete` nor `Box`, no `action_head` attribute
is ever assigned, and the constructor continues normally. -/
def initActionHead (featureDim : ℕ) : ActionSpace → Option ActionHead
  | .discrete n => some (.categorical featureDim n)
  | .box dim => some (.diagGaussian featureDim dim)
  | .other => none

/-- The constructed agent, as far as the action head is concerned; construction
is total (the constructor raises nothing for an unsupported action space). -/
structure AgentCtor where
  actionHead : Option ActionHead
  deriving Repr, DecidableEq

/-- Agent construction (agent.py lines 48-69 as far as the action head is
concerned): always returns an agent object. -/
def mkAgent (featureDim : ℕ) (space : ActionSpace) : AgentCtor :=
  ⟨initActionHead featureDim space⟩

/-- The first statement of `choose_action` that touches the head (agent.py line
76, `action_dist = self.action_head(features)`): it fails with an
`AttributeError` when the attribute was never assigned. -/
def choose_action (a : AgentCtor) : Except String ActionHead :=
  match a.actionHead with
  | some h => .ok h
  | none => .error "AttributeError: Agent object has no attribute action_head"

/-! Helper lemmas. -/

theorem vtraceGo_length (gamma clipRho clipPgRho lastV : ℝ) (ds : List Bool) :
    ∀ (ratios rs Vs : List ℝ),
    ratios.length = ds.length → rs.length = ds.length → Vs.length = ds.length →
    (vtraceGo gamma clipRho clipPgRho lastV ratios rs Vs ds).1.length
        = ds.length ∧
      (vtraceGo gamma clipRho clipPgRho lastV ratios rs Vs ds).2.length
        = ds.length := by
  induction ds with
  | nil =>
    intro ratios rs Vs h1 h2 h3
    simp only [List.length_nil, List.length_eq_zero] at h1 h2 h3
    subst h1; subst h2; subst h3
    simp [vtraceGo]
  | cons d ds ih =>
    intro ratios rs Vs h1 h2 h3
    cases ratios with
    | nil => simp at h1
    | cons a as =>
      cases rs with
      | nil => simp at h2
      | cons r rs2 =>
        cases Vs with
        | nil => simp at h3
        | cons V Vs2 =>
          simp only [List.length_cons] at h1 h2 h3
          obtain ⟨ihl, ihr⟩ := ih as rs2 Vs2 (by omega) (by omega) (by omega)
          simp [vtraceGo, ihl, ihr]

/-- C1: for the single trajectory with T = 2, gamma = 0.99, behavior log-probs
[0,0], target log-probs [0,0], rewards [1,1], values [0.5,0.5], bootstrap value
0, done = [false,true] and both clip thresholds 1, the `vtrace` function
invoked by `Agent.learn` returns value targets `vtarget[0] = 1.99` and
`vtarget[1] = 1.0` (exactly, in real arithmetic). -/
theorem vtrace_concrete_scenario :
    (vtrace [0, 0] [0, 0] (99 / 100) [1, 1] [1 / 2, 1 / 2] 0 [false, true]
        1 1).map Prod.fst = some [199 / 100, 1] := by
  simp [vtrace, vtraceGo, importanceRatios, Real.exp_zero]
  norm_num

/-- C4: for every well-formed trajectory input of length T (T rewards, T
behavior log-probs, T target log-probs, T value estimates, T done flags),
`vtrace` succeeds and returns a value-target sequence and an advantage
sequence each of length exactly T. -/
theorem vtrace_shape (behaviorLogp targetLogp : List ℝ) (gamma : ℝ)
    (rewards values : List ℝ) (lastV : ℝ) (dones : List Bool)
    (clipRho clipPgRho : ℝ)
    (h1 : behaviorLogp.length = dones.length)
    (h2 : targetLogp.length = dones.length)
    (h3 : rewards.length = dones.length)
    (h4 : values.length = dones.length) :
    ∃ vtargets advantages,
      vtrace behaviorLogp targetLogp gamma rewards values lastV dones
          clipRho clipPgRho = some (vtargets, advantages) ∧
        vtargets.length = dones.length ∧ advantages.length = dones.length := by
  have hr : (importanceRatios behaviorLogp targetLogp).length = dones.length := by
    simp [importanceRatios, h1, h2]
  obtain ⟨hl, ha⟩ :=
    vtraceGo_length gamma clipRho clipPgRho lastV dones _ rewards values hr h3 h4
  exact ⟨_, _, by simp [vtrace, h1, h2, h3, h4], hl, ha⟩

theorem importanceRatios_self (muLogp : List ℝ) :
    importanceRatios muLogp muLogp = List.replicate muLogp.length 1 := by
  induction muLogp with
  | nil => simp [importanceRatios]
  | cons m ms ih =>
    simp only [importanceRatios, List.zipWith_cons_cons, List.length_cons,
      List.replicate_succ] at *
    rw [ih]
    simp

theorem vtraceGo_onpolicy (gamma lastV clipRho clipPgRho : ℝ)
    (hc1 : 1 ≤ clipRho) (hc2 : 1 ≤ clipPgRho) (ds : List Bool) :
    ∀ (rs Vs : List ℝ), rs.length = ds.length → Vs.length = ds.length →
    (vtraceGo gamma clipRho clipPgRho lastV (List.replicate ds.length 1)
        rs Vs ds).1
      = nstepBootstrapReturn gamma lastV rs ds := by
  induction ds with
  | nil =>
    intro rs Vs h1 h2
    simp only [List.length_nil, List.length_eq_zero] at h1 h2
    subst h1; subst h2
    simp [vtraceGo, nstepBootstrapReturn]
  | cons d ds ih =>
    intro rs Vs h1 h2
    cases rs with
    | nil => simp at h1
    | cons r rs2 =>
      cases Vs with
      | nil => simp at h2
      | cons V Vs2 =>
        simp only [List.length_cons] at h1 h2
        have ihv := ih rs2 Vs2 (by omega) (by omega)
        simp only [List.length_cons, List.replicate_succ, vtraceGo,
          nstepBootstrapReturn, min_eq_left hc1, min_eq_left hc2, ihv]
        congr 1
        ring

theorem headD_eq_of_take (n : ℕ) (c1 c2 : ℝ) (xs ys : List ℝ)
    (hx : xs ≠ []) (hy : ys ≠ [])
    (h : xs.take (n + 1) = ys.take (n + 1)) : xs.headD c1 = ys.headD c2 := by
  cases xs with
  | nil => exact absurd rfl hx
  | cons x xs2 =>
    cases ys with
    | nil => exact absurd rfl hy
    | cons y ys2 =>
      simp only [List.take_succ_cons, List.cons.injEq] at h
      simp [h.1]

theorem zeroAfter_length (t : ℕ) (xs : List ℝ) :
    (zeroAfter t xs).length = xs.length := by
  simp only [zeroAfter, List.length_append, List.length_take,
    List.length_replicate]
  omega

theorem zeroAfter_take (t : ℕ) (xs : List ℝ) :
    (zeroAfter t xs).take (t + 1) = xs.take (t + 1) := by
  rw [zeroAfter, List.take_append_eq_append_take, List.take_take]
  have h0 : min (t + 1) (t + 1) = t + 1 := by omega
  rw [h0]
  have h1 : List.take (t + 1 - (xs.take (t + 1)).length)
      (List.replicate (xs.length - (t + 1)) (0 : ℝ)) = [] := by
    rcases le_or_lt (t + 1) xs.length with h | h
    · have hz : t + 1 - (xs.take (t + 1)).length = 0 := by
        simp only [List.length_take]
        omega
      rw [hz, List.take_zero]
    · have hz : xs.length - (t + 1) = 0 := by omega
      rw [hz, List.replicate_zero, List.take_nil]
  rw [h1, List.append_nil]

theorem vtraceGo_congr_take (gamma clipRho clipPgRho : ℝ) :
    ∀ (t : ℕ) (ds : List Bool) (lastV lastV2 : ℝ)
      (ratios rs Vs ratios2 rs2 Vs2 : List ℝ),
      ratios.length = ds.length → rs.length = ds.length →
      Vs.length = ds.length → ratios2.length = ds.length →
      rs2.length = ds.length → Vs2.length = ds.length →
      ratios2.take (t + 1) = ratios.take (t + 1) →
      rs2.take (t + 1) = rs.take (t + 1) →
      Vs2.take (t + 1) = Vs.take (t + 1) →
      t < ds.length → ds.getD t false = true →
      (vtraceGo gamma clipRho clipPgRho lastV2 ratios2 rs2
          Vs2 ds).1.take (t + 1)
        = (vtraceGo gamma clipRho clipPgRho lastV ratios rs
            Vs ds).1.take (t + 1) := by
  intro t
  induction t with
  | zero =>
    intro ds lastV lastV2 ratios rs Vs ratios2 rs2 Vs2 h1 h2 h3 h4 h5 h6
      e1 e2 e3 ht hd
    cases ds with
    | nil => simp at ht
    | cons d ds =>
      simp only [List.length_cons] at h1 h2 h3 h4 h5 h6
      obtain ⟨a, as, rfl⟩ : ∃ x xs2, ratios = x :: xs2 :=
        List.exists_cons_of_ne_nil (List.length_pos.mp (by omega))
      obtain ⟨r, rs0, rfl⟩ : ∃ x xs2, rs = x :: xs2 :=
        List.exists_cons_of_ne_nil (List.length_pos.mp (by omega))
      obtain ⟨V, Vs0, rfl⟩ : ∃ x xs2, Vs = x :: xs2 :=
        List.exists_cons_of_ne_nil (List.length_pos.mp (by omega))
      obtain ⟨a2, as2, rfl⟩ : ∃ x xs2, ratios2 = x :: xs2 :=
        List.exists_cons_of_ne_nil (List.length_pos.mp (by omega))
      obtain ⟨r2, rs02, rfl⟩ : ∃ x xs2, rs2 = x :: xs2 :=
        List.exists_cons_of_ne_nil (List.length_pos.mp (by omega))
      obtain ⟨V2, Vs02, rfl⟩ : ∃ x xs2, Vs2 = x :: xs2 :=
        List.exists_cons_of_ne_nil (List.length_pos.mp (by omega))
      simp only [List.take_succ_cons, List.take_zero, List.cons.injEq,
        and_true] at e1 e2 e3
      subst e1; subst e2; subst e3
      simp only [List.getD_cons_zero] at hd
      subst hd
      simp [vtraceGo]
  | succ t iht =>
    intro ds lastV lastV2 ratios rs Vs ratios2 rs2 Vs2 h1 h2 h3 h4 h5 h6
      e1 e2 e3 ht hd
    cases ds with
    | nil => simp at ht
    | cons d ds =>
      simp only [List.length_cons] at h1 h2 h3 h4 h5 h6 ht
      obtain ⟨a, as, rfl⟩ : ∃ x xs2, ratios = x :: xs2 :=
        List.exists_cons_of_ne_nil (List.length_pos.mp (by omega))
      obtain ⟨r, rs0, rfl⟩ : ∃ x xs2, rs = x :: xs2 :=
        List.exists_cons_of_ne_nil (List.length_pos.mp (by omega))
      obtain ⟨V, Vs0, rfl⟩ : ∃ x xs2, Vs = x :: xs2 :=
        List.exists_cons_of_ne_nil (List.length_pos.mp (by omega))
      obtain ⟨a2, as2, rfl⟩ : ∃ x xs2, ratios2 = x :: xs2 :=
        List.exists_cons_of_ne_nil (List.length_pos.mp (by omega))
      obtain ⟨r2, rs02, rfl⟩ : ∃ x xs2, rs2 = x :: xs2 :=
        List.exists_cons_of_ne_nil (List.length_pos.mp (by omega))
      obtain ⟨V2, Vs02, rfl⟩ : ∃ x xs2, Vs2 = x :: xs2 :=
        List.exists_cons_of_ne_nil (List.length_pos.mp (by omega))
      simp only [List.length_cons, Nat.add_right_cancel_iff] at h1 h2 h3 h4 h5 h6
      simp only [List.take_succ_cons, List.cons.injEq] at e1 e2 e3
      obtain ⟨ea, e1⟩ := e1
      obtain ⟨er, e2⟩ := e2
      obtain ⟨eV, e3⟩ := e3
      subst ea; subst er; subst eV
      simp only [List.getD_cons_succ] at hd
      have ht2 : t < ds.length := by omega
      have tail := iht ds lastV lastV2 as rs0 Vs0 as2 rs02 Vs02 h1 h2 h3 h4
        h5 h6 e1 e2 e3 ht2 hd
      have hVnext : Vs02.headD lastV2 = Vs0.headD lastV :=
        headD_eq_of_take t lastV2 lastV Vs02 Vs0
          (List.length_pos.mp (by omega)) (List.length_pos.mp (by omega)) e3
      have len1 := (vtraceGo_length gamma clipRho clipPgRho lastV ds as rs0
        Vs0 h1 h2 h3).1
      have len2 := (vtraceGo_length gamma clipRho clipPgRho lastV2 ds as2
        rs02 Vs02 h4 h5 h6).1
      have hvtNext :
          (vtraceGo gamma clipRho clipPgRho lastV2 as2 rs02
              Vs02 ds).1.headD lastV2
            = (vtraceGo gamma clipRho clipPgRho lastV as rs0
                Vs0 ds).1.headD lastV :=
        headD_eq_of_take t lastV2 lastV _ _
          (List.length_pos.mp (by omega)) (List.length_pos.mp (by omega)) tail
      simp only [vtraceGo, List.take_succ_cons, List.cons.injEq]
      constructor
      · rw [hVnext, hvtNext]
      · exact tail

/-- C3: terminal-boundary property.  For every trajectory and every index t
with `done[t] = true`, replacing every input at indices after t (rewards,
values, behavior and target log-probabilities) and the bootstrap value by
zero leaves the value targets returned by `vtrace` unchanged at every index
at or before t. -/
theorem vtrace_terminal_boundary (muLogp piLogp : List ℝ) (gamma : ℝ)
    (rewards values : List ℝ) (lastV : ℝ) (dones : List Bool)
    (clipRho clipPgRho : ℝ) (t : ℕ)
    (h1 : muLogp.length = dones.length)
    (h2 : piLogp.length = dones.length)
    (h3 : rewards.length = dones.length)
    (h4 : values.length = dones.length)
    (ht : t < dones.length) (hd : dones.getD t false = true) :
    (vtrace (zeroAfter t muLogp) (zeroAfter t piLogp) gamma
        (zeroAfter t rewards) (zeroAfter t values) 0 dones clipRho
        clipPgRho).map (fun out => out.1.take (t + 1))
      = (vtrace muLogp piLogp gamma rewards values lastV dones clipRho
          clipPgRho).map (fun out => out.1.take (t + 1)) := by
  rw [vtrace, vtrace,
    if_pos ⟨(zeroAfter_length t muLogp).trans h1,
      (zeroAfter_length t piLogp).trans h2,
      (zeroAfter_length t rewards).trans h3,
      (zeroAfter_length t values).trans h4⟩,
    if_pos ⟨h1, h2, h3, h4⟩]
  simp only [Option.map_some', Option.some.injEq]
  apply vtraceGo_congr_take gamma clipRho clipPgRho t dones lastV 0
  · simp [importanceRatios, h1, h2]
  · exact h3
  · exact h4
  · simp [importanceRatios, zeroAfter_length, h1, h2]
  · exact (zeroAfter_length t rewards).trans h3
  · exact (zeroAfter_length t values).trans h4
  · rw [importanceRatios, importanceRatios, List.take_zipWith,
      List.take_zipWith, zeroAfter_take, zeroAfter_take]
  · exact zeroAfter_take t rewards
  · exact zeroAfter_take t values
  · exact ht
  · exact hd

/-- Witness for `vtrace_terminal_boundary` at a concrete length-2 trajectory
whose step 0 is terminal. -/
theorem vtrace_terminal_boundary_witness :
    (vtrace (zeroAfter 0 [1, 2]) (zeroAfter 0 [3, 4]) (99 / 100)
        (zeroAfter 0 [5, 6]) (zeroAfter 0 [7, 8]) 0 [true, false] 1 1).map
        (fun out => out.1.take 1)
      = (vtrace [1, 2] [3, 4] (99 / 100) [5, 6] [7, 8] 9 [true, false]
          1 1).map (fun out => out.1.take 1) :=
  vtrace_terminal_boundary [1, 2] [3, 4] (99 / 100) [5, 6] [7, 8] 9
    [true, false] 1 1 0 rfl rfl rfl rfl (by decide) rfl

/-- C2: on-policy (equal behavior and target log-probs) with clip thresholds
at least 1, every importance ratio is 1, every clipped weight `rho[t]` and
`c[t]` is 1, and the value targets returned by `vtrace` are exactly the
standard n-step bootstrapped returns of the trajectory. -/
theorem vtrace_onpolicy (muLogp piLogp : List ℝ) (gamma : ℝ)
    (rewards values : List ℝ) (lastV : ℝ) (dones : List Bool)
    (clipRho clipPgRho : ℝ)
    (hEq : muLogp = piLogp)
    (hlen : muLogp.length = dones.length)
    (h3 : rewards.length = dones.length)
    (h4 : values.length = dones.length)
    (hc1 : 1 ≤ clipRho) (hc2 : 1 ≤ clipPgRho) :
    importanceRatios muLogp piLogp = List.replicate dones.length 1 ∧
      (importanceRatios muLogp piLogp).map (fun ratio => min ratio clipRho)
        = List.replicate dones.length 1 ∧
      (importanceRatios muLogp piLogp).map (fun ratio => min ratio clipPgRho)
        = List.replicate dones.length 1 ∧
      (vtrace muLogp piLogp gamma rewards values lastV dones clipRho
          clipPgRho).map Prod.fst
        = some (nstepBootstrapReturn gamma lastV rewards dones) := by
  subst hEq
  have hr : importanceRatios muLogp muLogp = List.replicate dones.length 1 := by
    rw [importanceRatios_self, hlen]
  refine ⟨hr, ?_, ?_, ?_⟩
  · rw [hr, List.map_replicate, min_eq_left hc1]
  · rw [hr, List.map_replicate, min_eq_left hc2]
  · rw [vtrace, if_pos ⟨hlen, hlen, h3, h4⟩, hr]
    simp only [Option.map_some']
    rw [vtraceGo_onpolicy gamma lastV clipRho clipPgRho hc1 hc2 dones rewards
      values h3 h4]

/-- Witness for `vtrace_onpolicy` at a concrete length-2 on-policy
trajectory with clip thresholds 2 and 3. -/
theorem vtrace_onpolicy_witness :
    importanceRatios [(3 : ℝ), 7] [3, 7]
        = List.replicate ([false, false] : List Bool).length 1 ∧
      (importanceRatios [(3 : ℝ), 7] [3, 7]).map (fun ratio => min ratio 2)
        = List.replicate ([false, false] : List Bool).length 1 ∧
      (importanceRatios [(3 : ℝ), 7] [3, 7]).map (fun ratio => min ratio 3)
        = List.replicate ([false, false] : List Bool).length 1 ∧
      (vtrace [3, 7] [3, 7] (1 / 2) [1, 2] [3, 4] 5 [false, false] 2 3).map
          Prod.fst
        = some (nstepBootstrapReturn (1 / 2) 5 [1, 2] [false, false]) :=
  vtrace_onpolicy [3, 7] [3, 7] (1 / 2) [1, 2] [3, 4] 5 [false, false] 2 3
    rfl rfl rfl rfl (by norm_num) (by norm_num)

/-- Witness for `vtrace_shape` at a concrete length-1 trajectory. -/
theorem vtrace_shape_witness :
    ∃ vtargets advantages,
      vtrace [(0 : ℝ)] [0] (99 / 100) [1] [0] 0 [true] 1 1
          = some (vtargets, advantages) ∧
        vtargets.length = ([true] : List Bool).length ∧
        advantages.length = ([true] : List Bool).length :=
  vtrace_shape [0] [0] (99 / 100) [1] [0] 0 [true] 1 1 rfl rfl rfl rfl

theorem total_loss_cons (valueCoef entropyCoef l e V v A : ℝ)
    (lps es Vs vs As : List ℝ) :
    total_loss valueCoef entropyCoef (l :: lps) (e :: es) (V :: Vs) (v :: vs)
        (A :: As)
      = (-l * A + valueCoef * (V - v) ^ 2 + entropyCoef * -e) ::
          total_loss valueCoef entropyCoef lps es Vs vs As := rfl

theorem total_loss_eq_lossSpecList (valueCoef entropyCoef : ℝ)
    (logprobs : List ℝ) :
    ∀ (entropies Vs vs As : List ℝ),
    total_loss valueCoef entropyCoef logprobs entropies Vs vs As
      = lossSpecList valueCoef entropyCoef logprobs entropies Vs vs As := by
  induction logprobs with
  | nil =>
    intro es Vs vs As
    simp [total_loss, policy_loss, value_loss, entropy_loss, lossSpecList]
  | cons l lps ih =>
    intro es Vs vs As
    cases es with
    | nil =>
      simp [total_loss, policy_loss, value_loss, entropy_loss, lossSpecList]
    | cons e es2 =>
      cases Vs with
      | nil =>
        simp [total_loss, policy_loss, value_loss, entropy_loss, lossSpecList]
      | cons V Vs2 =>
        cases vs with
        | nil =>
          simp [total_loss, policy_loss, value_loss, entropy_loss,
            lossSpecList]
        | cons v vs2 =>
          cases As with
          | nil =>
            simp [total_loss, policy_loss, value_loss, entropy_loss,
              lossSpecList]
          | cons A As2 =>
            rw [total_loss_cons]
            simp only [lossSpecList]
            rw [ih es2 Vs2 vs2 As2]

theorem lossSpecList_length (valueCoef entropyCoef : ℝ) (logprobs : List ℝ) :
    ∀ (entropies Vs vs As : List ℝ),
    entropies.length = logprobs.length → Vs.length = logprobs.length →
    vs.length = logprobs.length → As.length = logprobs.length →
    (lossSpecList valueCoef entropyCoef logprobs entropies Vs vs
        As).length = logprobs.length := by
  induction logprobs with
  | nil =>
    intro es Vs vs As h1 h2 h3 h4
    simp [lossSpecList]
  | cons l lps ih =>
    intro es Vs vs As h1 h2 h3 h4
    cases es with
    | nil => simp at h1
    | cons e es2 =>
      cases Vs with
      | nil => simp at h2
      | cons V Vs2 =>
        cases vs with
        | nil => simp at h3
        | cons v vs2 =>
          cases As with
          | nil => simp at h4
          | cons A As2 =>
            simp only [List.length_cons] at h1 h2 h3 h4
            simp only [lossSpecList, List.length_cons]
            rw [ih es2 Vs2 vs2 As2 (by omega) (by omega) (by omega) (by omega)]

/-- C5: in every `Agent.learn` call, the scalar loss that is backpropagated
equals the mean over all batch timesteps of `policy_loss +
value_coef*value_loss + entropy_coef*entropy_loss`, where per timestep
`policy_loss = -logprob*advantage`, `value_loss = (V - vtarget)^2` and
`entropy_loss = -entropy`. -/
theorem learn_loss_formula (valueCoef entropyCoef : ℝ)
    (logprobs entropies Vs vs As : List ℝ)
    (h1 : entropies.length = logprobs.length)
    (h2 : Vs.length = logprobs.length)
    (h3 : vs.length = logprobs.length)
    (h4 : As.length = logprobs.length) :
    learn_loss valueCoef entropyCoef logprobs entropies Vs vs As
      = (lossSpecList valueCoef entropyCoef logprobs entropies Vs vs
          As).sum / (logprobs.length : ℝ) ∧
    (lossSpecList valueCoef entropyCoef logprobs entropies Vs vs
        As).length = logprobs.length := by
  have hlen := lossSpecList_length valueCoef entropyCoef logprobs entropies
    Vs vs As h1 h2 h3 h4
  constructor
  · rw [learn_loss, total_loss_eq_lossSpecList, meanList, hlen]
  · exact hlen

/-- Witness for `learn_loss_formula` at a concrete one-timestep batch. -/
theorem learn_loss_formula_witness :
    learn_loss 6 7 [1] [2] [3] [4] [5]
      = (lossSpecList 6 7 [1] [2] [3] [4] [5]).sum
          / (([(1 : ℝ)]).length : ℝ) ∧
    (lossSpecList 6 7 [(1 : ℝ)] [2] [3] [4] [5]).length
      = ([(1 : ℝ)]).length :=
  learn_loss_formula 6 7 [1] [2] [3] [4] [5] rfl rfl rfl rfl

/-- C6: when advantage standardization is enabled, `Agent.learn` maps each
advantage to (advantage minus batch mean) divided by (batch standard deviation
plus 1e-8), and for every advantage batch, a zero-variance one included, the
divisor is strictly positive, so the transformation is total. -/
theorem standardize_adv_total (As : List ℝ) :
    0 < stdList As + 1 / 10 ^ 8 ∧
    standardize_adv As
      = As.map (fun A => (A - meanList As) / (stdList As + 1 / 10 ^ 8)) := by
  refine ⟨?_, rfl⟩
  have h := Real.sqrt_nonneg (varList As)
  have h2 : (0 : ℝ) < 1 / 10 ^ 8 := by norm_num
  rw [stdList]
  linarith

/-- C7: the cumulative timestep counter starts at 0 at construction, every
`learn` call on a batch adds exactly the sum of the lengths of the batch's
trajectories, and the counter never decreases across any sequence of agent
operations (`choose_action`, `learn`, `checkpoint`). -/
theorem total_timestep_counter :
    initAgent.total_timestep = 0 ∧
    (∀ (s : AgentState) (lens : List ℕ),
      (applyOp s (AgentOp.learn lens)).total_timestep
        = s.total_timestep + lens.sum) ∧
    ∀ (s : AgentState) (ops : List AgentOp),
      s.total_timestep ≤ (runOps s ops).total_timestep := by
  refine ⟨rfl, fun s lens => rfl, ?_⟩
  intro s ops
  induction ops generalizing s with
  | nil => exact le_refl _
  | cons op ops ih =>
    refine le_trans ?_ (ih (applyOp s op))
    cases op with
    | chooseAction => exact le_refl _
    | learn lens => exact Nat.le_add_right _ _
    | checkpoint n => exact le_refl _

/-- C8: every `Agent.checkpoint` call with iteration number n writes the agent
parameter file keyed by n, and writes the observation-moments file keyed by
the same n if and only if a `VecStandardizeObservation` wrapper is present in
the environment's wrapper stack. -/
theorem checkpoint_files (env : List String) (numIter : ℕ) :
    CkptFile.agent numIter ∈ checkpoint env numIter ∧
    (CkptFile.obsMoments numIter ∈ checkpoint env numIter ↔
      "VecStandardizeObservation" ∈ env) := by
  have key : (get_wrapper env "VecStandardizeObservation").isSome ↔
      "VecStandardizeObservation" ∈ env := by
    simp [get_wrapper, List.find?_isSome]
  constructor
  · simp [checkpoint]
  · rw [← key]
    rcases hw : get_wrapper env "VecStandardizeObservation" with _ | w
    · simp [checkpoint, hw]
    · simp [checkpoint, hw]

/-- C9: in every `Agent.learn` call with the learning-rate scheduler enabled,
the value passed to `lr_scheduler.step` is the cumulative timestep counter as
it stood before the current batch's timesteps are added; the counter is
incremented only afterwards.  With the scheduler disabled no value is
passed. -/
theorem lr_scheduler_step_arg (s : AgentState) (lens : List ℕ) :
    (learnStep true s lens).2 = some s.total_timestep ∧
    (learnStep true s lens).1.total_timestep = s.total_timestep + lens.sum ∧
    (learnStep false s lens).2 = none :=
  ⟨rfl, rfl, rfl⟩

/-- C10: when the constructor is given an environment whose action space is
neither `Discrete` nor `Box`, construction completes and assigns no action
head; the failure is deferred to the first `choose_action` call, which fails
with an `AttributeError` when it accesses `self.action_head`. -/
theorem agent_ctor_unsupported_space (featureDim : ℕ) (space : ActionSpace)
    (hD : ∀ n, space ≠ ActionSpace.discrete n)
    (hB : ∀ dim, space ≠ ActionSpace.box dim) :
    (mkAgent featureDim space).actionHead = none ∧
    choose_action (mkAgent featureDim space)
      = Except.error
          "AttributeError: Agent object has no attribute action_head" := by
  cases space with
  | discrete n => exact absurd rfl (hD n)
  | box dim => exact absurd rfl (hB dim)
  | other => exact ⟨rfl, rfl⟩

/-- Witness for `agent_ctor_unsupported_space` at feature dimension 64 and an
action space that is neither discrete nor box. -/
theorem agent_ctor_unsupported_space_witness :
    (mkAgent 64 ActionSpace.other).actionHead = none ∧
    choose_action (mkAgent 64 ActionSpace.other)
      = Except.error
          "AttributeError: Agent object has no attribute action_head" :=
  agent_ctor_unsupported_space 64 ActionSpace.other
    (fun _ h => nomatch h) (fun _ h => nomatch h)

end Lagom
